import Mathlib

set_option linter.unusedVariables false
set_option maxRecDepth 100000

/-!
Verification development for the vectorkv LSM storage engine.

Each definition below is a shallow embedding of a function of the Rust
source tree (file and function are named in the doc comment).  Machine
integers are modelled as Nat with explicit `% 2^w` where the source relies
on wrapping; Rust panics (slice out of range, `unwrap`, `expect`) are
modelled by a dedicated `panicked` result; fallible code returns
`Except`/`RRes`.
-/

/-- Error type, from src/error.rs (enum DBError); only the variants the
embedded code paths construct are carried, with their message strings. -/
inductive DBErr where
  | Io (msg : String)
  | Corruption (msg : String)
  | InvalidArgument (msg : String)
  | NotFound (msg : String)
  | InvalidKeyOrder (msg : String)
  | EmptyTable (msg : String)
  | UnknownColumnFamily (msg : String)
  | InvalidColumnFamily (msg : String)
  deriving Repr, DecidableEq

/-- Result of running a Rust code path: normal value, returned error, or a
panic (slice out of range, unwrap/expect failure, explicit panic). -/
inductive RRes (α : Type) where
  | ok (a : α)
  | err (e : DBErr)
  | panicked
  deriving Repr, DecidableEq

def RRes.bind {α β : Type} : RRes α → (α → RRes β) → RRes β
  | .ok a, f => f a
  | .err e, _ => .err e
  | .panicked, _ => .panicked

/-- Bytes are lists of naturals; all byte values produced by the embedded
encoders are < 256 by construction. -/
abbrev Bytes := List Nat

/-- Lexicographic byte-string comparison, the semantics of Rust
`Vec<u8>: Ord` used throughout the source for user keys. -/
def bytesCmp : Bytes → Bytes → Ordering
  | [], [] => .eq
  | [], _ :: _ => .lt
  | _ :: _, [] => .gt
  | x :: xs, y :: ys =>
    match compare x y with
    | .eq => bytesCmp xs ys
    | o => o

/-- Value kind, from src/engine/mem/memtable.rs (enum ValueType);
discriminants Put = 0, Delete = 1 as in the Rust `as u8` casts. -/
inductive ValueType where
  | Put
  | Delete
  deriving Repr, DecidableEq

def ValueType.toU8 : ValueType → Nat
  | .Put => 0
  | .Delete => 1

/-- Internal key, from src/engine/mem/memtable.rs (struct InternalKey). -/
structure InternalKey where
  user_key : Bytes
  seq : Nat
  value_type : ValueType
  deriving Repr, DecidableEq

/-- MVCC comparator, from src/engine/mem/memtable.rs (fn mvcc_comparator):
user_key ascending, then sequence descending, then value_type descending
(comparing the `as u8` discriminants). -/
def mvccComparator (a b : InternalKey) : Ordering :=
  match bytesCmp a.user_key b.user_key with
  | .eq =>
    match compare b.seq a.seq with
    | .eq => compare b.value_type.toU8 a.value_type.toU8
    | o => o
  | o => o

/-- Visibility predicate, from src/engine/mem/memtable.rs
(SkipListMemTable::new, local fn is_visible): the candidate entry `a` is
returned for probe `b` iff same user key, a.seq ≤ b.seq, and `a` is not a
Delete tombstone. -/
def isVisible (a b : InternalKey) : Bool :=
  a.user_key == b.user_key && a.seq ≤ b.seq && !(a.value_type == ValueType.Delete)

/-- Skiplist contents, modelled as the list of (key, value) nodes in the
order maintained by SkipList::insert (ascending by mvccComparator). -/
abbrev SkipEntries := List (InternalKey × Bytes)

/-- Insertion position, from src/engine/mem/skiplist.rs (SkipList::insert):
the new node is linked after every node whose key compares Less than the
inserted key and before the first other node. -/
def skipInsert (k : InternalKey) (v : Bytes) : SkipEntries → SkipEntries
  | [] => [(k, v)]
  | (k0, v0) :: rest =>
    if mvccComparator k0 k == Ordering.lt then
      (k0, v0) :: skipInsert k v rest
    else
      (k, v) :: (k0, v0) :: rest

/-- Search, from src/engine/mem/skiplist.rs (SkipList::search): walk past
every node whose key compares Less than the probe, then test only the
first remaining node with is_visible. -/
def skipSearch (key : InternalKey) : SkipEntries → Option Bytes
  | [] => none
  | (k0, v0) :: rest =>
    if mvccComparator k0 key == Ordering.lt then
      skipSearch key rest
    else if isVisible k0 key then
      some v0
    else
      none

/-- Memtable, from src/engine/mem/memtable.rs (struct SkipListMemTable);
the arena, memory counter and atomics are elided, the entry list and the
frontier sequence are kept. -/
structure MemTableM where
  cf : Nat
  entries : SkipEntries
  frontier_seq : Nat
  immutable : Bool
  deriving Repr, DecidableEq

def MemTableM.new (cf : Nat) (seq : Nat) : MemTableM :=
  { cf := cf, entries := [], frontier_seq := seq, immutable := false }

/-- MemTable::add from src/engine/mem/memtable.rs: panics when immutable,
otherwise inserts (user_key, seq, value_type) → value into the skiplist. -/
def MemTableM.add (m : MemTableM) (seq : Nat) (user_key : Bytes) (value : Bytes)
    (value_type : ValueType) : RRes MemTableM :=
  if m.immutable then
    RRes.panicked
  else
    RRes.ok { m with entries := skipInsert ⟨user_key, seq, value_type⟩ value m.entries }

/-- InternalKey::from_seq_slice from src/engine/mem/memtable.rs: probe key
with the given sequence and value_type Put. -/
def InternalKey.fromSeqSlice (seq : Nat) (bytes : Bytes) : InternalKey :=
  ⟨bytes, seq, ValueType.Put⟩

/-- MemTable::get from src/engine/mem/memtable.rs: short-circuit below the
frontier sequence, then skiplist search with a (key, seq, Put) probe. -/
def MemTableM.get (m : MemTableM) (seq : Nat) (key : Bytes) : Option Bytes :=
  if seq < m.frontier_seq then
    none
  else
    skipSearch (InternalKey.fromSeqSlice seq key) m.entries

/-- Write batch entry, from src/engine/wal/write_batch.rs
(enum WriteBatchEntry). -/
inductive WriteBatchEntry where
  | Put (cf : Nat) (key : Bytes) (value : Bytes)
  | Delete (cf : Nat) (key : Bytes)
  deriving Repr, DecidableEq

/-- Per-CF tables, from src/engine/mem/memtable_set.rs (struct CfMemTables);
immutables are kept oldest-first as the VecDeque push_back order. -/
structure CfMemTables where
  active : MemTableM
  immutables : List MemTableM
  deriving Repr, DecidableEq

/-- Memtable set, from src/engine/mem/memtable_set.rs (struct MemTableSet);
the HashMap is modelled as an association list over CF ids. -/
structure MemTableSetM where
  cfs : List (Nat × CfMemTables)
  deriving Repr, DecidableEq

def MemTableSetM.new (seq : Nat) (cfs : List Nat) : MemTableSetM :=
  ⟨cfs.map (fun cf => (cf, ⟨MemTableM.new cf seq, []⟩))⟩

def lookupCf (s : MemTableSetM) (cf : Nat) : Option CfMemTables :=
  (s.cfs.find? (fun p => p.1 == cf)).map Prod.snd

def updateCf (s : MemTableSetM) (cf : Nat) (t : CfMemTables) : MemTableSetM :=
  ⟨s.cfs.map (fun p => if p.1 == cf then (p.1, t) else p)⟩

/-- MemTableSet::insert from src/engine/mem/memtable_set.rs: write one
entry into the active table of its CF; unknown CF is an error. -/
def MemTableSetM.insert (s : MemTableSetM) (cf : Nat) (seq : Nat) (key : Bytes)
    (value : Bytes) (vt : ValueType) : RRes MemTableSetM :=
  match lookupCf s cf with
  | none => RRes.err (DBErr.UnknownColumnFamily (toString cf))
  | some tables =>
    RRes.bind (tables.active.add seq key value vt) fun active2 =>
      RRes.ok (updateCf s cf { tables with active := active2 })

/-- MemTableSet::apply from src/engine/mem/memtable_set.rs: entries of the
batch receive sequences base_seq, base_seq+1, …, in order. -/
def MemTableSetM.apply (s : MemTableSetM) (base_seq : Nat) :
    List WriteBatchEntry → RRes MemTableSetM
  | [] => RRes.ok s
  | e :: rest =>
    let step :=
      match e with
      | .Put cf key value => s.insert cf base_seq key value ValueType.Put
      | .Delete cf key => s.insert cf base_seq key [] ValueType.Delete
    RRes.bind step fun s2 => s2.apply (base_seq + 1) rest

/-- MemTableSet::get from src/engine/mem/memtable_set.rs: active first,
then the immutables newest-first (iter().rev() over the push_back order). -/
def MemTableSetM.get (s : MemTableSetM) (cf : Nat) (seq : Nat) (key : Bytes) :
    Option Bytes :=
  match lookupCf s cf with
  | none => none
  | some tables =>
    match tables.active.get seq key with
    | some v => some v
    | none =>
      (tables.immutables.reverse.findSome? (fun t => t.get seq key))

/-- DB state for the write/read facade of src/db/db_impl.rs, restricted to
a freshly opened DB with no SST files (the Version is empty, so
DBImpl::get falls through to None whenever the memtable set misses). -/
structure DBStateM where
  current_sequence : Nat
  mem : MemTableSetM
  deriving Repr, DecidableEq

/-- VersionSet::allocate_sequence from src/engine/version/version_set.rs:
fetch_add(batch_size) followed by `+ batch_size`, so the returned base is
the old counter plus the batch size. -/
def allocateSequence (cur : Nat) (batch_size : Nat) : Nat × Nat :=
  (cur + batch_size, cur + batch_size)

/-- DBImpl::write from src/db/db_impl.rs: allocate a base sequence for the
batch, then apply it to the memtable set (the WAL append does not affect
the in-memory read path and is elided here). -/
def dbWrite (st : DBStateM) (batch : List WriteBatchEntry) : RRes DBStateM :=
  let alloc := allocateSequence st.current_sequence batch.length
  RRes.bind (st.mem.apply alloc.2 batch) fun mem2 =>
    RRes.ok { current_sequence := alloc.1, mem := mem2 }

/-- DBImpl::get from src/db/db_impl.rs at the implicit snapshot
current_sequence: memtable set first; on a miss the empty Version of a
fresh DB yields None. -/
def dbGet (st : DBStateM) (cf : Nat) (key : Bytes) : Option Bytes :=
  match st.mem.get cf st.current_sequence key with
  | some v => some v
  | none => none

/-- Fresh DB over the two bootstrap column families (ids 0 and 1), with
current_sequence 0 as installed by VersionSet::load on first startup. -/
def freshDB : DBStateM :=
  { current_sequence := 0, mem := MemTableSetM.new 0 [0, 1] }

/-- The S1 scenario of the spec: put cf 0 key "a" value "1", then delete
the same key, both through DBImpl::write. -/
def c1State : RRes DBStateM :=
  RRes.bind (dbWrite freshDB [WriteBatchEntry.Put 0 [97] [49]]) fun st1 =>
    dbWrite st1 [WriteBatchEntry.Delete 0 [97]]

/-- C1: the claim requires that a Delete tombstone newer than an older Put
hides that Put, so get must return absent after put("a","1"); delete("a").
The code instead returns the old value "1": the skiplist search probe
(key, snapshot, Put) orders after the tombstone (key, snapshot, Delete),
the walk steps past the tombstone, and is_visible accepts the older Put.
This theorem evaluates the code at the failing input. -/
theorem c1_tombstone_is_ignored :
    (RRes.bind c1State fun st => RRes.ok (dbGet st 0 [97])) =
      RRes.ok (some [49]) := by
  decide

/-- VersionEdit, from src/engine/version/version_edit.rs, restricted to the
fields VersionSet::load folds over (the CF/file fields do not influence the
recovered counters). -/
structure VersionEditM where
  next_file_number : Option Nat
  last_sequence : Option Nat
  deriving Repr, DecidableEq

/-- Counter state of the VersionSet, from src/engine/version/version_set.rs
(fields next_file_number, current_sequence, last_sequence). -/
structure VersionSetCounters where
  next_file_number : Nat
  current_sequence : Nat
  last_sequence : Nat
  deriving Repr, DecidableEq

/-- The replay fold of VersionSet::load (src/engine/version/version_set.rs,
manifest.replay closure): last_sequence and next_file_number advance by
max over the optional fields of each edit. -/
def loadFold (acc : Nat × Nat) (e : VersionEditM) : Nat × Nat :=
  (max acc.1 (e.last_sequence.getD acc.1),
   max acc.2 (e.next_file_number.getD acc.2))

/-- VersionSet::load, non-first-startup path
(src/engine/version/version_set.rs): replay the MANIFEST edits starting
from last_sequence = 0, next_file_number = 1, then construct the
VersionSet with current_sequence := AtomicU64::new(0) and
last_sequence := the recovered maximum. -/
def versionSetLoad (edits : List VersionEditM) : VersionSetCounters :=
  let acc := edits.foldl loadFold (0, 1)
  { next_file_number := acc.2, current_sequence := 0, last_sequence := acc.1 }

/-- WalManager::replay_batches composed with the DBImpl::recover callback
(src/engine/wal/wal_manager.rs and src/db/db_impl.rs): every decoded
(base_seq, batch) record is applied to the memtable set, in order, with no
sequence filtering. -/
def recoverReplay (s : MemTableSetM) :
    List (Nat × List WriteBatchEntry) → RRes MemTableSetM
  | [] => RRes.ok s
  | (base_seq, batch) :: rest =>
    RRes.bind (s.apply base_seq batch) fun s2 => recoverReplay s2 rest

/-- Does the active memtable of a CF contain an entry with the given
internal key? -/
def activeContains (s : MemTableSetM) (cf : Nat) (k : InternalKey) : Bool :=
  match lookupCf s cf with
  | none => false
  | some tables => tables.active.entries.any (fun p => p.1 == k)

/-- A reopened DB: MANIFEST whose single edit carries last_sequence = 1,
and a WAL holding the batch that produced exactly that sequence 1. -/
def c2Manifest : List VersionEditM := [⟨none, some 1⟩]

def c2WalRecords : List (Nat × List WriteBatchEntry) :=
  [(1, [WriteBatchEntry.Put 0 [107] [118]])]

/-- The memtable set DBImpl::open builds before recovery: frontier is
versions.current_sequence(), which the load path above left at 0. -/
def c2MemSet : MemTableSetM :=
  MemTableSetM.new (versionSetLoad c2Manifest).current_sequence [0, 1]

/-- C2: the claim requires that WAL replay apply only entries with
sequence greater than the MANIFEST-recovered last_sequence, and that
entries with sequence ≤ it not be re-applied.  The code
(DBImpl::recover → WalManager::replay_batches) applies every decoded
batch unconditionally: with recovered last_sequence = 1, the WAL entry
with sequence 1 is re-applied into the active memtable.  This theorem
evaluates the code at the failing input. -/
theorem c2_replay_ignores_last_sequence :
    (versionSetLoad c2Manifest).last_sequence = 1 ∧
    (RRes.bind (recoverReplay c2MemSet c2WalRecords) fun s =>
      RRes.ok (activeContains s 0 ⟨[107], 1, ValueType.Put⟩)) = RRes.ok true := by
  decide

/-- A MANIFEST recording durable writes up to sequence 5. -/
def c3Manifest : List VersionEditM := [⟨some 3, some 5⟩]

/-- C3: the claim requires every sequence allocated after reopen to exceed
every sequence durably recorded before the restart.  VersionSet::load
resets current_sequence to 0 (only last_sequence receives the recovered
maximum), so the first one-entry write after reopen is allocated base
sequence 1 even though sequence 5 was durably recorded; moreover, within a
single run, allocate_sequence returns old+n for a batch occupying
[old+n, old+2n−1], so a 3-entry batch followed by a 1-entry batch yields
ranges [3,5] and [4,4], re-issuing sequence 4.  This theorem evaluates the
code at both failing inputs. -/
theorem c3_sequences_not_monotonic :
    ((versionSetLoad c3Manifest).last_sequence = 5 ∧
      (allocateSequence (versionSetLoad c3Manifest).current_sequence 1).2 = 1) ∧
    (let a1 := allocateSequence 0 3
     let a2 := allocateSequence a1.1 1
     a1.2 = 3 ∧ a2.2 = 4 ∧ a1.2 ≤ a2.2 ∧ a2.2 ≤ a1.2 + 3 - 1) := by
  decide

/-- Write-buffer threshold, from src/db/db_impl.rs (make_room_for_write,
const MEMTABLE_MAX_BYTES). -/
def MEMTABLE_MAX_BYTES : Nat := 64 * 1024 * 1024

/-- Immutables cap, from src/db/db_impl.rs (make_room_for_write,
const MAX_IMMUTABLES); the constant is declared in the source but no code
path reads it. -/
def MAX_IMMUTABLES : Nat := 4

/-- Sizes of one CF's tables as seen by make_room_for_write: the active
memtable's approximate usage and the lengths of the immutables queue and
the flushing set. -/
structure CfUsage where
  activeUsage : Nat
  immutables : Nat
  flushing : Nat
  deriving Repr, DecidableEq

/-- State touched by DBImpl::make_room_for_write: per-CF usage plus the
number of flush commands handed to the background worker. -/
structure RoomState where
  cfs : List (Nat × CfUsage)
  scheduledFlushes : Nat
  deriving Repr, DecidableEq

/-- One CF step of DBImpl::make_room_for_write (src/db/db_impl.rs): unknown
CF errors; an active table at or over MEMTABLE_MAX_BYTES is frozen
(freeze_active pushes it onto immutables and installs a fresh active) and a
flush candidate is popped and scheduled.  No other check is performed: the
length of the immutables queue is never compared against MAX_IMMUTABLES
and no stall/busy result exists. -/
def makeRoomStep (st : RoomState) (cf : Nat) : RRes RoomState :=
  match (st.cfs.find? (fun p => p.1 == cf)).map Prod.snd with
  | none => RRes.err (DBErr.InvalidArgument ("unknown CF"))
  | some u =>
    if u.activeUsage ≥ MEMTABLE_MAX_BYTES then
      let frozen : CfUsage := ⟨0, u.immutables + 1, u.flushing⟩
      let afterPick : CfUsage × Nat :=
        if frozen.immutables > 0 then
          (⟨frozen.activeUsage, frozen.immutables - 1, frozen.flushing + 1⟩, 1)
        else
          (frozen, 0)
      RRes.ok
        ⟨st.cfs.map (fun p => if p.1 == cf then (p.1, afterPick.1) else p),
          st.scheduledFlushes + afterPick.2⟩
    else
      RRes.ok st

/-- DBImpl::make_room_for_write over the CFs the batch touches. -/
def makeRoomForWrite (st : RoomState) : List Nat → RRes RoomState
  | [] => RRes.ok st
  | cf :: rest =>
    RRes.bind (makeRoomStep st cf) fun st2 => makeRoomForWrite st2 rest

/-- A column family whose immutables queue far exceeds the cap. -/
def c8State : RoomState := ⟨[(0, ⟨0, 10, 0⟩)], 0⟩

/-- C8: the claim requires the write path to stall the caller (a
Busy/Stall retry signal) whenever a touched CF's immutables queue exceeds
its cap.  The code's make_room_for_write never inspects the immutables
queue length (MAX_IMMUTABLES is declared but unused, and the DBError type
has no Busy/Stall variant), so a batch touching a CF with 10 queued
immutables proceeds normally.  This theorem evaluates the code at the
failing input. -/
theorem c8_no_stall_over_cap :
    c8State.cfs.any (fun p => p.2.immutables > MAX_IMMUTABLES) = true ∧
    makeRoomForWrite c8State [0] = RRes.ok c8State := by
  decide

/-- The derived total order on InternalKey that Rust
derive(PartialOrd, Ord) produces for the struct declared in
src/engine/mem/memtable.rs: field order user_key, seq, value_type, each
ascending.  This — not mvcc_comparator — is the order HeapItem::cmp in
src/engine/version/compaction.rs compares by (reversed to make the
BinaryHeap pop the minimum). -/
def derivedKeyCmp (a b : InternalKey) : Ordering :=
  match bytesCmp a.user_key b.user_key with
  | .eq =>
    match compare a.seq b.seq with
    | .eq => compare a.value_type.toU8 b.value_type.toU8
    | o => o
  | o => o

/-- Select the input whose head is minimal under derivedKeyCmp (the
BinaryHeap of SingleLevelCompaction::compact_level holds one head per
input iterator; pop returns the least). -/
def selectMinInput (lists : List (List (InternalKey × Bytes))) :
    Option (Nat × (InternalKey × Bytes)) :=
  (lists.enum.filterMap (fun p =>
      match p.2 with
      | [] => none
      | e :: _ => some (p.1, e))).foldl
    (fun best c =>
      match best with
      | none => some c
      | some b =>
        if derivedKeyCmp c.2.1 b.2.1 == Ordering.lt then some c else some b)
    none

/-- Advance input i past its head. -/
def popInput (i : Nat) (lists : List (List (InternalKey × Bytes))) :
    List (List (InternalKey × Bytes)) :=
  lists.enum.map (fun p => if p.1 == i then p.2.drop 1 else p.2)

/-- The pop sequence of the compaction heap: repeatedly emit the least
remaining head under derivedKeyCmp. -/
def kWayMergePops (fuel : Nat) (lists : List (List (InternalKey × Bytes))) :
    List (InternalKey × Bytes) :=
  match fuel with
  | 0 => []
  | f + 1 =>
    match selectMinInput lists with
    | none => []
    | some (i, e) => e :: kWayMergePops f (popInput i lists)

/-- The output loop of SingleLevelCompaction::compact_level
(src/engine/version/compaction.rs): on the first popped entry of each
user_key, keep it iff it is a Put; every later entry of the same user_key
is dropped, and tombstones are never written out. -/
def compactKeepLoop (last_user_key : Option Bytes) :
    List (InternalKey × Bytes) → List (InternalKey × Bytes)
  | [] => []
  | (k, v) :: rest =>
    let is_new_key :=
      match last_user_key with
      | none => true
      | some lk => !(lk == k.user_key)
    if is_new_key then
      if k.value_type == ValueType.Put then
        (k, v) :: compactKeepLoop (some k.user_key) rest
      else
        compactKeepLoop (some k.user_key) rest
    else
      compactKeepLoop last_user_key rest

/-- Entries written to the compaction output SST for the given input
files (each file listed in its on-disk iteration order). -/
def compactionOutputEntries (files : List (List (InternalKey × Bytes))) :
    List (InternalKey × Bytes) :=
  compactKeepLoop none
    (kWayMergePops ((files.map List.length).sum + 1) files)

/-- Input files for the C6 scenario: one file holding Put(k, seq 1) = "v",
another holding the newer tombstone Delete(k, seq 2). -/
def c6FileA : List (InternalKey × Bytes) := [(⟨[107], 1, ValueType.Put⟩, [118])]

def c6FileB : List (InternalKey × Bytes) := [(⟨[107], 2, ValueType.Delete⟩, [])]

/-- C6: the claim requires compaction to keep the newest entry of each
user_key and to keep previously deleted keys absent.  The compaction heap
orders by the derived InternalKey order (sequence ascending), so the
oldest version pops first: merging a file holding Put(k, seq 1) with a
file holding the newer tombstone Delete(k, seq 2) emits the old Put into
the output and silently drops the tombstone — the deleted key becomes
readable again.  This theorem evaluates the code at the failing input. -/
theorem c6_compaction_resurrects_deleted_key :
    compactionOutputEntries [c6FileA, c6FileB] =
      [(⟨[107], 1, ValueType.Put⟩, [118])] := by
  decide

/-- Cache node, from src/engine/sst/block/shard_cache.rs (struct Node):
key is (file_number, block_offset); `pinned` records whether the entry's
Arc strong count exceeds one at eviction time. -/
structure CacheNode where
  key : Nat × Nat
  charge : Nat
  pinned : Bool
  deriving Repr, DecidableEq

/-- LRU shard, from src/engine/sst/block/shard_cache.rs (struct Shard):
entries are kept MRU-first (list head = LRU front, list last = LRU back);
the hash map is subsumed by key lookup in the list. -/
structure ShardM where
  entries : List CacheNode
  usage : Nat
  capacity : Nat
  deriving Repr, DecidableEq

def ShardM.new (capacity : Nat) : ShardM := ⟨[], 0, capacity⟩

def moveKeyToFront (k : Nat × Nat) (l : List CacheNode) : List CacheNode :=
  match l.find? (fun n => n.key == k) with
  | none => l
  | some n => n :: l.filter (fun m => !(m.key == k))

def moveLastToFront (l : List CacheNode) : List CacheNode :=
  match l.getLast? with
  | none => l
  | some n => n :: l.dropLast

/-- Shard::erase from src/engine/sst/block/shard_cache.rs: remove the node
and subtract its charge from usage (saturating). -/
def shardErase (sh : ShardM) (k : Nat × Nat) : ShardM :=
  match sh.entries.find? (fun n => n.key == k) with
  | none => sh
  | some n =>
    ⟨sh.entries.filter (fun m => !(m.key == k)), sh.usage - n.charge, sh.capacity⟩

/-- The bounded eviction scan of Shard::evict_if_needed
(src/engine/sst/block/shard_cache.rs): while usage > capacity and scans
remain, inspect the LRU back; a pinned victim is spliced to the front,
an unpinned one is erased.  Returns the shard and the number of evicted
nodes. -/
def evictScan (scans : Nat) (sh : ShardM) : ShardM × Nat :=
  match scans with
  | 0 => (sh, 0)
  | s + 1 =>
    if sh.usage ≤ sh.capacity then
      (sh, 0)
    else
      match sh.entries.getLast? with
      | none => (sh, 0)
      | some victim =>
        if victim.pinned then
          evictScan s ⟨moveLastToFront sh.entries, sh.usage, sh.capacity⟩
        else
          let r := evictScan s (shardErase sh victim.key)
          (r.1, r.2 + 1)

/-- Shard::evict_if_needed from src/engine/sst/block/shard_cache.rs: early
return when usage ≤ capacity; the scan bound is max(map.len(), 8). -/
def evictIfNeeded (sh : ShardM) : ShardM × Nat :=
  if sh.usage ≤ sh.capacity then
    (sh, 0)
  else
    evictScan (max sh.entries.length 8) sh

/-- Shard::insert from src/engine/sst/block/shard_cache.rs: an existing
key has its old charge subtracted (saturating) and the new charge added,
and is moved to the front; a fresh key is pushed at the front and its
charge added.  Either way evict_if_needed runs afterwards. -/
def shardInsert (sh : ShardM) (k : Nat × Nat) (charge : Nat) (pinned : Bool) :
    ShardM × Nat :=
  match sh.entries.find? (fun n => n.key == k) with
  | some old =>
    let entries2 := moveKeyToFront k
      (sh.entries.map (fun n => if n.key == k then ⟨k, charge, pinned⟩ else n))
    evictIfNeeded ⟨entries2, sh.usage - old.charge + charge, sh.capacity⟩
  | none =>
    evictIfNeeded ⟨⟨k, charge, pinned⟩ :: sh.entries, sh.usage + charge, sh.capacity⟩

/-- The insert performed by SstReader::read_data_block_cached on a block
cache miss (src/engine/sst/sst_reader.rs, line 127): the charge passed is
the literal 0, and the caller still holds the Arc, so the node is pinned. -/
def readMissInsert (sh : ShardM) (k : Nat × Nat) : ShardM × Nat :=
  shardInsert sh k 0 true

/-- A sequence of data-block reads, each missing the cache and inserting
through read_data_block_cached; accumulates the total number of nodes the
eviction scans removed. -/
def readMissTrace (sh : ShardM) : List (Nat × Nat) → ShardM × Nat
  | [] => (sh, 0)
  | k :: ks =>
    let step := readMissInsert sh k
    let rest := readMissTrace step.1 ks
    (rest.1, step.2 + rest.2)

theorem evictIfNeeded_le (sh : ShardM) (h : sh.usage ≤ sh.capacity) :
    evictIfNeeded sh = (sh, 0) := by
  simp [evictIfNeeded, h]

theorem readMissInsert_usage (sh : ShardM) (k : Nat × Nat)
    (h : sh.usage = 0) :
    (readMissInsert sh k).1.usage = 0 ∧ (readMissInsert sh k).1.capacity = sh.capacity ∧
      (readMissInsert sh k).2 = 0 := by
  unfold readMissInsert shardInsert
  cases hf : sh.entries.find? (fun n => n.key == k) with
  | none =>
    simp only [hf, h]
    rw [evictIfNeeded_le _ (by simp)]
    simp
  | some old =>
    simp only [hf, h]
    rw [evictIfNeeded_le _ (by simp)]
    simp

/-- C10: on every block-cache miss, SstReader::read_data_block_cached
inserts the loaded block with a charge of 0, so over any sequence of
data-block reads from a fresh shard the usage counter stays 0 — it is
never increased by read-path insertions — and eviction, which only runs
while usage exceeds capacity, never removes a node, whatever the
configured capacity. -/
theorem c10_read_path_charge_zero (capacity : Nat) (keys : List (Nat × Nat)) :
    (readMissTrace (ShardM.new capacity) keys).1.usage = 0 ∧
      (readMissTrace (ShardM.new capacity) keys).2 = 0 := by
  have main : ∀ (ks : List (Nat × Nat)) (sh : ShardM), sh.usage = 0 →
      (readMissTrace sh ks).1.usage = 0 ∧ (readMissTrace sh ks).2 = 0 := by
    intro ks
    induction ks with
    | nil => intro sh h; simpa [readMissTrace] using h
    | cons k ks ih =>
      intro sh h
      have step := readMissInsert_usage sh k h
      have tail := ih (readMissInsert sh k).1 step.1
      simp [readMissTrace, tail.1, tail.2, step.2.2]
  exact main keys (ShardM.new capacity) rfl

/-- One shift step of the bitwise reflected CRC-32: low bit set shifts and
folds in the polynomial. -/
def crcShiftStep (poly : Nat) (c : Nat) : Nat :=
  if c % 2 == 1 then Nat.xor (c / 2) poly else c / 2

/-- Fold one byte into a reflected CRC-32 state. -/
def crcFoldByte (poly : Nat) (crc : Nat) (b : Nat) : Nat :=
  (crcShiftStep poly)^[8] (Nat.xor crc (b % 256))

/-- CRC-32 (IEEE polynomial, reflected), the checksum computed by the
crc32fast::Hasher used in src/engine/wal/format.rs. -/
def crc32 (data : Bytes) : Nat :=
  Nat.xor (data.foldl (crcFoldByte 0xEDB88320) 0xFFFFFFFF) 0xFFFFFFFF

/-- CRC-32C (Castagnoli polynomial, reflected).  Modelled from the spec:
the spec's block-trailer checksum is named CRC32C; no code under src
computes any block-trailer checksum, so this definition follows the
spec's words for comparison against what the builder actually writes. -/
def crc32c (data : Bytes) : Nat :=
  Nat.xor (data.foldl (crcFoldByte 0x82F63B78) 0xFFFFFFFF) 0xFFFFFFFF

/-- crc32_mask from src/engine/wal/format.rs: rotate right by 15 within
32 bits, then wrapping-add the masking delta. -/
def crc32Mask (crc : Nat) : Nat :=
  (Nat.lor (crc / 32768) ((crc * 131072) % 4294967296) + 0xA282EAD8) % 4294967296

def le16 (v : Nat) : Bytes := [v % 256, v / 256 % 256]

def le32 (v : Nat) : Bytes :=
  [v % 256, v / 256 % 256, v / 65536 % 256, v / 16777216 % 256]

def le64 (v : Nat) : Bytes :=
  [v % 256, v / 256 % 256, v / 65536 % 256, v / 16777216 % 256,
   v / 4294967296 % 256, v / 1099511627776 % 256,
   v / 281474976710656 % 256, v / 72057594037927936 % 256]

/-- WAL fragment type, from src/engine/wal/format.rs (enum RecordType). -/
inductive RecordType where
  | Full
  | First
  | Middle
  | Last
  deriving Repr, DecidableEq

def RecordType.toU8 : RecordType → Nat
  | .Full => 1
  | .First => 2
  | .Middle => 3
  | .Last => 4

/-- RecordType::from_u8 from src/engine/wal/format.rs. -/
def recordTypeFromU8 (v : Nat) : Option RecordType :=
  match v with
  | 1 => some RecordType.Full
  | 2 => some RecordType.First
  | 3 => some RecordType.Middle
  | 4 => some RecordType.Last
  | _ => none

/-- record_crc32c from src/engine/wal/format.rs: checksum over
(type byte ∥ payload); the library behind it is crc32fast (CRC-32 IEEE). -/
def recordCrc (typ : RecordType) (payload : Bytes) : Nat :=
  crc32 (typ.toU8 :: payload)

/-- WalWriter::write_fragment from src/engine/wal/wal_writer.rs: header =
CRC (4 bytes LE), payload length (2 bytes LE), type byte, then payload. -/
def writeFragment (typ : RecordType) (frag : Bytes) : Bytes :=
  le32 (recordCrc typ frag) ++ le16 frag.length ++ [typ.toU8] ++ frag

def BLOCK_SIZE : Nat := 32768

def HEADER_SIZE : Nat := 7

/-- Reassembly state of WalReader (fields assembling, assembling_active of
src/engine/wal/wal_reader.rs). -/
structure WalState where
  assembling : Bytes
  active : Bool
  deriving Repr, DecidableEq

def resetAssembling (_st : WalState) : WalState := ⟨[], false⟩

/-- The fragment loop of WalReader::next_record
(src/engine/wal/wal_reader.rs) over the remainder of one block, collecting
every record completed inside the block: fewer than 7 remaining bytes or
an all-zero header skip to the block end; an unknown type, a fragment
truncated by the block end, or a CRC mismatch skip to the block end and
reset reassembly; Middle/Last without an active reassembly skip to the
block end.  Fuel exceeds the byte count, so it never runs out. -/
def walParseFragments (fuel : Nat) (r : Bytes) (st : WalState) :
    List Bytes × WalState :=
  match fuel with
  | 0 => ([], st)
  | f + 1 =>
    match r with
    | b0 :: b1 :: b2 :: b3 :: b4 :: b5 :: b6 :: tail =>
      let crc := b0 + 256 * b1 + 65536 * b2 + 16777216 * b3
      let len := b4 + 256 * b5
      let typU8 := b6
      if crc == 0 && len == 0 && typU8 == 0 then
        ([], st)
      else
        match recordTypeFromU8 typU8 with
        | none => ([], resetAssembling st)
        | some typ =>
          if len > tail.length then
            ([], resetAssembling st)
          else
            let frag := tail.take len
            if recordCrc typ frag == crc then
              let rest := tail.drop len
              match typ with
              | RecordType.Full =>
                let next := walParseFragments f rest (resetAssembling st)
                (frag :: next.1, next.2)
              | RecordType.First => walParseFragments f rest ⟨frag, true⟩
              | RecordType.Middle =>
                if st.active then
                  walParseFragments f rest ⟨st.assembling ++ frag, true⟩
                else
                  ([], st)
              | RecordType.Last =>
                if st.active then
                  let next := walParseFragments f rest ⟨[], false⟩
                  ((st.assembling ++ frag) :: next.1, next.2)
                else
                  ([], st)
            else
              ([], resetAssembling st)
    | _ => ([], st)

def walParseBlock (r : Bytes) (st : WalState) : List Bytes × WalState :=
  walParseFragments (r.length + 1) r st

/-- WalReader::read_next_block (src/engine/wal/wal_reader.rs): the stream
is consumed in chunks of up to BLOCK_SIZE bytes; the final chunk may be
short. -/
def chunkBlocks (fuel : Nat) (s : Bytes) : List Bytes :=
  match fuel with
  | 0 => []
  | f + 1 =>
    if s.length == 0 then [] else s.take BLOCK_SIZE :: chunkBlocks f (s.drop BLOCK_SIZE)

def walBlocks (s : Bytes) : List Bytes := chunkBlocks (s.length + 1) s

/-- The record stream WalManager::replay obtains by iterating
WalReader::next_record to exhaustion (src/engine/wal/wal_manager.rs):
records of every block in order; reaching EOF while a fragmented record is
still being reassembled is the corruption error of next_record. -/
def walReadAll (s : Bytes) : Except DBErr (List Bytes) :=
  let r := (walBlocks s).foldl
    (fun acc blk =>
      let p := walParseBlock blk acc.2
      (acc.1 ++ p.1, p.2))
    ([], (⟨[], false⟩ : WalState))
  if r.2.active then
    Except.error (DBErr.Corruption ("EOF in fragmented record"))
  else
    Except.ok r.1

/-- encode_write_batch from src/engine/wal/format.rs: record tag byte,
base_seq (8 bytes LE), count (4 bytes LE), then the entries. -/
def encodeWriteBatch (base_seq : Nat) (entries : List WriteBatchEntry) : Bytes :=
  [1] ++ le64 base_seq ++ le32 entries.length ++
    (entries.map (fun e =>
      match e with
      | WriteBatchEntry.Put cf key value =>
        [1] ++ le32 cf ++ le32 key.length ++ key ++ le32 value.length ++ value
      | WriteBatchEntry.Delete cf key =>
        [2] ++ le32 cf ++ le32 key.length ++ key)).flatten

/-- A WAL holding one complete batch record written as a Full fragment,
followed by a second batch record fragmented into First + Last. -/
def c7Payload1 : Bytes := encodeWriteBatch 1 []

def c7Payload2 : Bytes := encodeWriteBatch 2 []

def c7Stream : Bytes :=
  writeFragment RecordType.Full c7Payload1 ++
    writeFragment RecordType.First (c7Payload2.take 6) ++
      writeFragment RecordType.Last (c7Payload2.drop 6)


def exceptDecEq {ε α : Type} [DecidableEq ε] [DecidableEq α] :
    (a b : Except ε α) → Decidable (a = b)
  | .error e, .error f =>
    match decEq e f with
    | isTrue h => isTrue (by rw [h])
    | isFalse h => isFalse (by intro hh; cases hh; exact h rfl)
  | .error _, .ok _ => isFalse (by intro h; cases h)
  | .ok _, .error _ => isFalse (by intro h; cases h)
  | .ok a, .ok b =>
    match decEq a b with
    | isTrue h => isTrue (by rw [h])
    | isFalse h => isFalse (by intro hh; cases hh; exact h rfl)

instance {ε α : Type} [DecidableEq ε] [DecidableEq α] :
    DecidableEq (Except ε α) := exceptDecEq

/-- C7 counterexample: the full 47-byte WAL replays both batch records,
but the stream truncated at byte offset 33 — exactly the end of the First
fragment of the second record — makes replay fail with the corruption
error of WalReader::next_record (EOF during active reassembly), so open,
which propagates recover()'s error, cannot return the complete record
written before the truncation.  This refutes the claim's clause that
truncating the WAL at ANY byte offset leaves open able to recover all
complete records prior to the truncation. -/
theorem c7_truncation_at_fragment_boundary_fails :
    walReadAll c7Stream = Except.ok [c7Payload1, c7Payload2] ∧
      walReadAll (c7Stream.take 33) =
        Except.error (DBErr.Corruption ("EOF in fragmented record")) := by
  decide

/-- The byte stream the WAL writer produces for a list of records when
each is written as a single Full fragment (WalWriter::append takes this
path whenever the payload fits the remaining space of the current block). -/
def walEncodeFullRecords (ps : List Bytes) : Bytes :=
  (ps.map (writeFragment RecordType.Full)).flatten

/-- Number of leading records whose encoded bytes lie entirely within the
first t bytes of the encoded stream. -/
def completeCountFull : List Bytes → Nat → Nat
  | [], _ => 0
  | p :: ps, t =>
    if HEADER_SIZE + p.length ≤ t then
      completeCountFull ps (t - (HEADER_SIZE + p.length)) + 1
    else
      0

theorem crcShiftStep_lt (poly c : Nat) (hp : poly < 2 ^ 32) (hc : c < 2 ^ 32) :
    crcShiftStep poly c < 2 ^ 32 := by
  unfold crcShiftStep
  split
  · exact Nat.xor_lt_two_pow (by omega) hp
  · omega

theorem crcIter_lt (poly : Nat) (hp : poly < 2 ^ 32) :
    ∀ (k c : Nat), c < 2 ^ 32 → (crcShiftStep poly)^[k] c < 2 ^ 32 := by
  intro k
  induction k with
  | zero => intro c hc; simpa using hc
  | succ k ih =>
    intro c hc
    rw [Function.iterate_succ_apply]
    exact ih _ (crcShiftStep_lt poly c hp hc)

theorem crcFoldByte_lt (poly crc b : Nat) (hp : poly < 2 ^ 32)
    (hc : crc < 2 ^ 32) : crcFoldByte poly crc b < 2 ^ 32 := by
  unfold crcFoldByte
  exact crcIter_lt poly hp 8 _ (Nat.xor_lt_two_pow hc (by omega))

theorem crcFold_lt (poly : Nat) (hp : poly < 2 ^ 32) :
    ∀ (data : Bytes) (acc : Nat), acc < 2 ^ 32 →
      data.foldl (crcFoldByte poly) acc < 2 ^ 32 := by
  intro data
  induction data with
  | nil => intro acc h; simpa using h
  | cons b bs ih =>
    intro acc h
    exact ih _ (crcFoldByte_lt poly acc b hp h)

theorem crc32_lt (data : Bytes) : crc32 data < 2 ^ 32 := by
  unfold crc32
  exact Nat.xor_lt_two_pow
    (crcFold_lt 0xEDB88320 (by norm_num) data 0xFFFFFFFF (by norm_num))
    (by norm_num)

theorem le32_recompose (c : Nat) (h : c < 2 ^ 32) :
    c % 256 + 256 * (c / 256 % 256) + 65536 * (c / 65536 % 256) +
      16777216 * (c / 16777216 % 256) = c := by
  omega

theorem le16_recompose (l : Nat) (h : l < 65536) :
    l % 256 + 256 * (l / 256 % 256) = l := by
  omega

theorem walParseFragments_fuel :
    ∀ (n f g : Nat) (r : Bytes) (st : WalState),
      r.length ≤ n → n < f → n < g →
      walParseFragments f r st = walParseFragments g r st := by
  intro n
  induction n using Nat.strong_induction_on with
  | _ n ih =>
    intro f g r st hr hf hg
    obtain ⟨f1, rfl⟩ : ∃ k, f = k + 1 := ⟨f - 1, by omega⟩
    obtain ⟨g1, rfl⟩ : ∃ k, g = k + 1 := ⟨g - 1, by omega⟩
    match r, hr with
    | [], _ => rfl
    | [b0], _ => rfl
    | [b0, b1], _ => rfl
    | [b0, b1, b2], _ => rfl
    | [b0, b1, b2, b3], _ => rfl
    | [b0, b1, b2, b3, b4], _ => rfl
    | [b0, b1, b2, b3, b4, b5], _ => rfl
    | b0 :: b1 :: b2 :: b3 :: b4 :: b5 :: b6 :: tail, hr =>
      have htail : tail.length + 7 ≤ n := by
        simpa [List.length_cons] using hr
      simp only [walParseFragments]
      by_cases hz : (b0 + 256 * b1 + 65536 * b2 + 16777216 * b3 == 0 &&
          (b4 + 256 * b5 == 0) && (b6 == 0)) = true
      · simp only [if_pos hz]
      · simp only [if_neg hz]
        cases hty : recordTypeFromU8 b6 with
        | none => simp only [hty]
        | some typ =>
          simp only [hty]
          by_cases hb : b4 + 256 * b5 > tail.length
          · simp only [if_pos hb]
          · simp only [if_neg hb]
            have hrec : ∀ st2,
                walParseFragments f1 (tail.drop (b4 + 256 * b5)) st2 =
                walParseFragments g1 (tail.drop (b4 + 256 * b5)) st2 := by
              intro st2
              have hd : (tail.drop (b4 + 256 * b5)).length ≤ n - 7 := by
                simp only [List.length_drop]
                omega
              exact ih (n - 7) (by omega) f1 g1 _ st2 hd (by omega) (by omega)
            by_cases hc : (recordCrc typ (tail.take (b4 + 256 * b5)) ==
                b0 + 256 * b1 + 65536 * b2 + 16777216 * b3) = true
            · simp only [if_pos hc]
              cases typ <;> simp only [hrec]
            · simp only [if_neg hc]

theorem walParseBlock_fuel (f : Nat) (r : Bytes) (st : WalState)
    (h : r.length < f) :
    walParseFragments f r st = walParseBlock r st :=
  walParseFragments_fuel r.length f (r.length + 1) r st le_rfl h (by omega)

theorem walParseFragments_cons_eq (f : Nat) (b0 b1 b2 b3 b4 b5 b6 : Nat)
    (tail : Bytes) (st : WalState) :
    walParseFragments (f + 1) (b0 :: b1 :: b2 :: b3 :: b4 :: b5 :: b6 :: tail) st =
      (if b0 + 256 * b1 + 65536 * b2 + 16777216 * b3 == 0 &&
          b4 + 256 * b5 == 0 && b6 == 0 then
        ([], st)
      else
        match recordTypeFromU8 b6 with
        | none => ([], resetAssembling st)
        | some typ =>
          if b4 + 256 * b5 > tail.length then
            ([], resetAssembling st)
          else
            if recordCrc typ (tail.take (b4 + 256 * b5)) ==
                b0 + 256 * b1 + 65536 * b2 + 16777216 * b3 then
              match typ with
              | RecordType.Full =>
                (tail.take (b4 + 256 * b5) ::
                    (walParseFragments f (tail.drop (b4 + 256 * b5))
                      (resetAssembling st)).1,
                  (walParseFragments f (tail.drop (b4 + 256 * b5))
                    (resetAssembling st)).2)
              | RecordType.First =>
                walParseFragments f (tail.drop (b4 + 256 * b5))
                  ⟨tail.take (b4 + 256 * b5), true⟩
              | RecordType.Middle =>
                if st.active then
                  walParseFragments f (tail.drop (b4 + 256 * b5))
                    ⟨st.assembling ++ tail.take (b4 + 256 * b5), true⟩
                else
                  ([], st)
              | RecordType.Last =>
                if st.active then
                  ((st.assembling ++ tail.take (b4 + 256 * b5)) ::
                      (walParseFragments f (tail.drop (b4 + 256 * b5))
                        ⟨[], false⟩).1,
                    (walParseFragments f (tail.drop (b4 + 256 * b5))
                      ⟨[], false⟩).2)
                else
                  ([], st)
            else
              ([], resetAssembling st)) := rfl

theorem walParseBlock_full_cons (p rest : Bytes) (st : WalState)
    (hlen : p.length < 65536) :
    walParseBlock (writeFragment RecordType.Full p ++ rest) st =
      (p :: (walParseBlock rest ⟨[], false⟩).1,
        (walParseBlock rest ⟨[], false⟩).2) := by
  have hc32 : recordCrc RecordType.Full p < 2 ^ 32 := crc32_lt _
  have hs : writeFragment RecordType.Full p ++ rest =
      recordCrc RecordType.Full p % 256 ::
      (recordCrc RecordType.Full p / 256 % 256) ::
      (recordCrc RecordType.Full p / 65536 % 256) ::
      (recordCrc RecordType.Full p / 16777216 % 256) ::
      (p.length % 256) :: (p.length / 256 % 256) :: 1 :: (p ++ rest) := by
    simp [writeFragment, le32, le16, RecordType.toU8]
  rw [hs]
  simp only [walParseBlock]
  have hlc : (recordCrc RecordType.Full p % 256 ::
      (recordCrc RecordType.Full p / 256 % 256) ::
      (recordCrc RecordType.Full p / 65536 % 256) ::
      (recordCrc RecordType.Full p / 16777216 % 256) ::
      (p.length % 256) :: (p.length / 256 % 256) :: 1 :: (p ++ rest)).length =
      ((p ++ rest).length + 6) + 1 := by
    simp only [List.length_cons]
  rw [hlc, walParseFragments_cons_eq]
  rw [le16_recompose p.length hlen, le32_recompose _ hc32]
  have hz : (recordCrc RecordType.Full p == 0 &&
      p.length == 0 && (1 : Nat) == 0) = false := by
    simp
  rw [hz]
  simp only [Bool.false_eq_true, if_false, recordTypeFromU8]
  have hb : ¬(p.length > (p ++ rest).length) := by
    simp only [List.length_append]
    omega
  rw [if_neg hb]
  have htake : (p ++ rest).take p.length = p := List.take_left p rest
  have hdrop : (p ++ rest).drop p.length = rest := List.drop_left p rest
  rw [htake, hdrop]
  simp only [beq_self_eq_true, if_true, resetAssembling]
  have h1 := walParseBlock_fuel ((p ++ rest).length + 7) rest
    (⟨[], false⟩ : WalState) (by simp only [List.length_append]; omega)
  have h2 := walParseBlock_fuel ((p ++ rest).length + 6) rest
    (⟨[], false⟩ : WalState) (by simp only [List.length_append]; omega)
  simp only [h1, h2, walParseBlock]

theorem walParseBlock_short (r : Bytes) (st : WalState) (h : r.length < 7) :
    walParseBlock r st = ([], st) := by
  match r, h with
  | [], _ => rfl
  | [b0], _ => rfl
  | [b0, b1], _ => rfl
  | [b0, b1, b2], _ => rfl
  | [b0, b1, b2, b3], _ => rfl
  | [b0, b1, b2, b3, b4], _ => rfl
  | [b0, b1, b2, b3, b4, b5], _ => rfl
  | b0 :: b1 :: b2 :: b3 :: b4 :: b5 :: b6 :: tail, h => 
    exfalso
    simp only [List.length_cons] at h
    omega

theorem take_add_seven (u : Nat) (a0 a1 a2 a3 a4 a5 a6 : Nat) (l : Bytes) :
    (a0 :: a1 :: a2 :: a3 :: a4 :: a5 :: a6 :: l).take (u + 7) =
      a0 :: a1 :: a2 :: a3 :: a4 :: a5 :: a6 :: l.take u := by
  simp [List.take_succ_cons]

theorem writeFragment_full_length (p : Bytes) :
    (writeFragment RecordType.Full p).length = 7 + p.length := by
  simp [writeFragment, le32, le16]
  omega

theorem walParseBlock_full_truncated (p : Bytes) (t : Nat)
    (hlen : p.length < 65536) (ht : t < 7 + p.length) :
    walParseBlock ((writeFragment RecordType.Full p).take t) ⟨[], false⟩ =
      ([], (⟨[], false⟩ : WalState)) := by
  by_cases h7 : t < 7
  · apply walParseBlock_short
    have : ((writeFragment RecordType.Full p).take t).length ≤ t := by
      simp [List.length_take]
    omega
  · obtain ⟨u, rfl⟩ : ∃ u, t = u + 7 := ⟨t - 7, by omega⟩
    have hu : u < p.length := by omega
    have hc32 : recordCrc RecordType.Full p < 2 ^ 32 := crc32_lt _
    have hs : writeFragment RecordType.Full p =
        recordCrc RecordType.Full p % 256 ::
        (recordCrc RecordType.Full p / 256 % 256) ::
        (recordCrc RecordType.Full p / 65536 % 256) ::
        (recordCrc RecordType.Full p / 16777216 % 256) ::
        (p.length % 256) :: (p.length / 256 % 256) :: 1 :: p := by
      simp [writeFragment, le32, le16, RecordType.toU8]
    rw [hs, take_add_seven]
    simp only [walParseBlock]
    have hlc : (recordCrc RecordType.Full p % 256 ::
        (recordCrc RecordType.Full p / 256 % 256) ::
        (recordCrc RecordType.Full p / 65536 % 256) ::
        (recordCrc RecordType.Full p / 16777216 % 256) ::
        (p.length % 256) :: (p.length / 256 % 256) :: 1 :: p.take u).length =
        ((p.take u).length + 6) + 1 := by
      simp only [List.length_cons]
    rw [hlc, walParseFragments_cons_eq]
    rw [le16_recompose p.length hlen, le32_recompose _ hc32]
    have hz : (recordCrc RecordType.Full p == 0 &&
        p.length == 0 && (1 : Nat) == 0) = false := by
      simp
    rw [hz]
    simp only [Bool.false_eq_true, if_false, recordTypeFromU8]
    have hb : p.length > (p.take u).length := by
      simp only [List.length_take]
      omega
    rw [if_pos hb]
    rfl

theorem walParseBlock_fullRecords (ps : List Bytes) (t : Nat)
    (hlen : ∀ p ∈ ps, p.length < 65536) :
    walParseBlock ((walEncodeFullRecords ps).take t) ⟨[], false⟩ =
      (ps.take (completeCountFull ps t), (⟨[], false⟩ : WalState)) := by
  induction ps generalizing t with
  | nil =>
    simp only [walEncodeFullRecords, List.map_nil, List.flatten_nil,
      List.take_nil, completeCountFull]
    rfl
  | cons p ps ih =>
    have hp : p.length < 65536 := hlen p (by simp)
    have hps : ∀ q ∈ ps, q.length < 65536 := fun q hq => hlen q (by simp [hq])
    have hwl : (writeFragment RecordType.Full p).length = 7 + p.length :=
      writeFragment_full_length p
    by_cases hle : 7 + p.length ≤ t
    · have hsplit : (walEncodeFullRecords (p :: ps)).take t =
          writeFragment RecordType.Full p ++
            (walEncodeFullRecords ps).take (t - (7 + p.length)) := by
        simp only [walEncodeFullRecords, List.map_cons, List.flatten_cons]
        rw [List.take_append_eq_append_take, hwl,
          List.take_of_length_le (by omega)]
      rw [hsplit, walParseBlock_full_cons _ _ _ hp, ih _ hps]
      have hcc : completeCountFull (p :: ps) t =
          completeCountFull ps (t - (7 + p.length)) + 1 := by
        simp only [completeCountFull, HEADER_SIZE]
        rw [if_pos hle]
      rw [hcc, List.take_succ_cons]
    · have ht : t < 7 + p.length := by omega
      have hsplit : (walEncodeFullRecords (p :: ps)).take t =
          (writeFragment RecordType.Full p).take t := by
        simp only [walEncodeFullRecords, List.map_cons, List.flatten_cons]
        rw [List.take_append_eq_append_take, hwl]
        have hz : t - (7 + p.length) = 0 := by omega
        rw [hz]
        simp
      rw [hsplit, walParseBlock_full_truncated p t hp ht]
      have hcc : completeCountFull (p :: ps) t = 0 := by
        simp only [completeCountFull, HEADER_SIZE]
        rw [if_neg (by omega)]
      rw [hcc, List.take_zero]

theorem walBlocks_single (s : Bytes) (h0 : s ≠ []) (h : s.length ≤ BLOCK_SIZE) :
    walBlocks s = [s] := by
  obtain ⟨k, hk⟩ : ∃ k, s.length = k + 1 := by
    cases s with
    | nil => exact absurd rfl h0
    | cons a l => exact ⟨l.length, by simp⟩
  unfold walBlocks
  rw [hk]
  unfold chunkBlocks
  have hz : (s.length == 0) = false := by
    simp [hk]
  rw [hz]
  simp only [Bool.false_eq_true, if_false]
  rw [List.take_of_length_le h, List.drop_eq_nil_of_le h]
  unfold chunkBlocks
  simp

theorem completeCountFull_zero (ps : List Bytes) : completeCountFull ps 0 = 0 := by
  cases ps with
  | nil => rfl
  | cons p ps =>
    simp only [completeCountFull, HEADER_SIZE]
    rw [if_neg (by omega)]

theorem walEncodeFullRecords_eq_nil (ps : List Bytes)
    (h : walEncodeFullRecords ps = []) : ps = [] := by
  cases ps with
  | nil => rfl
  | cons p ps =>
    exfalso
    have hl : (walEncodeFullRecords (p :: ps)).length = 0 := by rw [h]; rfl
    simp only [walEncodeFullRecords, List.map_cons, List.flatten_cons,
      List.length_append, writeFragment_full_length] at hl
    omega

/-- C7 amended: truncating a WAL whose records were each written as a
single Full fragment inside one 32 KiB block, at ANY byte offset, lets
replay recover exactly the complete records prior to the truncation (the
cut tail is dropped as a truncated fragment or header and the reader stops
cleanly at the block end).  The unamended claim fails only when the
truncation point coincides with a fragment boundary during reassembly of a
multi-fragment record, where the reader's EOF check raises the corruption
error instead. -/
theorem c7_wal_tail_tolerance_full_records (ps : List Bytes) (t : Nat)
    (hlen : ∀ p ∈ ps, p.length < 65536)
    (htot : (walEncodeFullRecords ps).length ≤ BLOCK_SIZE) :
    walReadAll ((walEncodeFullRecords ps).take t) =
      Except.ok (ps.take (completeCountFull ps t)) := by
  by_cases hnil : (walEncodeFullRecords ps).take t = []
  · rw [hnil]
    have hval : walReadAll [] = Except.ok [] := rfl
    rw [hval]
    rcases List.take_eq_nil_iff.mp hnil with h | h
    · rw [h, completeCountFull_zero, List.take_zero]
    · rw [walEncodeFullRecords_eq_nil ps h]
      rfl
  · have hx : ((walEncodeFullRecords ps).take t).length ≤ BLOCK_SIZE := by
      simp only [List.length_take]
      omega
    unfold walReadAll
    rw [walBlocks_single _ hnil hx]
    simp only [List.foldl_cons, List.foldl_nil]
    rw [walParseBlock_fullRecords ps t hlen]
    simp

theorem c7_wal_tail_tolerance_witness :
    (∀ p ∈ [[1], [2]], List.length p < 65536) ∧
      (walEncodeFullRecords [[1], [2]]).length ≤ BLOCK_SIZE ∧
      walReadAll ((walEncodeFullRecords [[1], [2]]).take 11) =
        Except.ok [[1]] := by
  refine ⟨by decide, by decide, ?_⟩
  have h := c7_wal_tail_tolerance_full_records [[1], [2]] 11 (by decide) (by decide)
  rw [h]
  rfl

/-- put_varint64 from src/engine/sst/table_builder.rs (also put_varint32 in
src/engine/sst/block/coding.rs, an identical loop): 7-bit groups, high bit
set on continuation bytes.  Fuel 20 exceeds the 10-byte maximum of u64. -/
def putVarintLoop : Nat → Nat → Bytes
  | 0, v => [v % 256]
  | f + 1, v =>
    if v ≥ 128 then
      Nat.lor (v % 256) 128 :: putVarintLoop f (v / 128)
    else
      [v % 256]

def putVarint64 (v : Nat) : Bytes := putVarintLoop 20 v

/-- try_get_varint32 from src/engine/sst/block/coding.rs: reads while the
position is in range and the shift is at most 28. -/
def tryGetVarint32Loop (src : Bytes) : Nat → Nat → Nat → Nat → Option (Nat × Nat)
  | 0, _, _, _ => none
  | f + 1, pos, shift, out =>
    if pos < src.length ∧ shift ≤ 28 then
      let b := src.getD pos 0
      let out2 := Nat.lor out (Nat.shiftLeft (Nat.land b 127) shift)
      if Nat.land b 128 == 0 then
        some (out2, pos + 1)
      else
        tryGetVarint32Loop src f (pos + 1) (shift + 7) out2
    else
      none

def tryGetVarint32 (src : Bytes) (pos : Nat) : Option (Nat × Nat) :=
  tryGetVarint32Loop src 6 pos 0 0

/-- get_varint64 from src/engine/sst/format.rs: same loop with shift bound
63; returns None on exhaustion. -/
def tryGetVarint64Loop (src : Bytes) : Nat → Nat → Nat → Nat → Option (Nat × Nat)
  | 0, _, _, _ => none
  | f + 1, pos, shift, out =>
    if pos < src.length ∧ shift ≤ 63 then
      let b := src.getD pos 0
      let out2 := Nat.lor out (Nat.shiftLeft (Nat.land b 127) shift)
      if Nat.land b 128 == 0 then
        some (out2, pos + 1)
      else
        tryGetVarint64Loop src f (pos + 1) (shift + 7) out2
    else
      none

def tryGetVarint64 (src : Bytes) (pos : Nat) : Option (Nat × Nat) :=
  tryGetVarint64Loop src 11 pos 0 0

/-- Rust slice indexing data[a..b]: out-of-range bounds panic. -/
def sliceRange (data : Bytes) (a b : Nat) : RRes Bytes :=
  if a ≤ b ∧ b ≤ data.length then
    RRes.ok ((data.take b).drop a)
  else
    RRes.panicked

def commonPrefixLen : Bytes → Bytes → Nat
  | x :: xs, y :: ys => if x == y then commonPrefixLen xs ys + 1 else 0
  | _, _ => 0

/-- Block builder, from src/engine/sst/block/block.rs (struct BlockBuilder):
prefix-compressed entries with a restart every restart_interval entries. -/
structure BlockBuilderM where
  restart_interval : Nat
  buf : Bytes
  restarts : List Nat
  counter : Nat
  last_key : Bytes
  deriving Repr, DecidableEq

def BlockBuilderM.new (ri : Nat) : BlockBuilderM := ⟨ri, [], [0], 0, []⟩

/-- BlockBuilder::add from src/engine/sst/block/block.rs. -/
def BlockBuilderM.add (b : BlockBuilderM) (key value : Bytes) : BlockBuilderM :=
  let step :=
    if b.counter < b.restart_interval then
      (commonPrefixLen b.last_key key, b.restarts, b.counter)
    else
      (0, b.restarts ++ [b.buf.length], 0)
  let shared := step.1
  let non_shared := key.length - shared
  { b with
    buf := b.buf ++ putVarint64 shared ++ putVarint64 non_shared ++
      putVarint64 value.length ++ key.drop shared ++ value,
    restarts := step.2.1,
    counter := step.2.2 + 1,
    last_key := key }

/-- BlockBuilder::finish from src/engine/sst/block/block.rs: entries, then
each restart offset as 4 little-endian bytes, then the restart count. -/
def BlockBuilderM.finishBytes (b : BlockBuilderM) : Bytes :=
  b.buf ++ (b.restarts.map le32).flatten ++ le32 b.restarts.length

def BlockBuilderM.currentSizeEstimate (b : BlockBuilderM) : Nat :=
  b.buf.length + b.restarts.length * 4

def BlockBuilderM.isEmpty (b : BlockBuilderM) : Bool := b.buf.length == 0

/-- BlockHandle, from src/engine/sst/format.rs. -/
structure BlockHandleM where
  offset : Nat
  size : Nat
  deriving Repr, DecidableEq

def BlockHandleM.encodeTo (h : BlockHandleM) : Bytes :=
  putVarint64 h.offset ++ putVarint64 h.size

/-- TABLE_MAGIC from src/util/constants.rs. -/
def TABLE_MAGIC : Nat := 0xdb4775248b80fb57

/-- Footer::encode from src/engine/sst/format.rs: both handles varint
encoded, zero-padded to 40 bytes, then the magic as 8 little-endian
bytes; the first 48 bytes are emitted. -/
def encodeFooter (meta index : BlockHandleM) : Bytes :=
  let buf := meta.encodeTo ++ index.encodeTo
  let padded := if buf.length < 40 then buf ++ List.replicate (40 - buf.length) 0 else buf
  (padded ++ le64 TABLE_MAGIC).take 48

/-- TableProperties::encode from src/engine/sst/block/table_properties.rs
for the builder's properties (TableProperties::default() with only
num_entries advanced by the flush path): CF id (4 bytes LE), five varint
counters, then the varint32-length-prefixed smallest and largest keys
(None encodes as the empty slice). -/
def encodeProps (num_entries : Nat) : Bytes :=
  le32 0 ++ putVarint64 num_entries ++ putVarint64 0 ++ putVarint64 0 ++
    putVarint64 0 ++ putVarint64 0 ++ putVarint64 0 ++ putVarint64 0

/-- The bytes of the string "properties", the metaindex key used by
MetaIndexBlockBuilder::add_properties_block. -/
def propertiesKey : Bytes := [112, 114, 111, 112, 101, 114, 116, 105, 101, 115]

/-- Table builder, from src/engine/sst/table_builder.rs (struct
TableBuilder); dst accumulates the bytes written to the sink. -/
structure TableBuilderM where
  dst : Bytes
  offset : Nat
  block_size : Nat
  data_block : BlockBuilderM
  index_block : BlockBuilderM
  metaindex_block : BlockBuilderM
  pending_index_key : Option Bytes
  smallest_key : Option Bytes
  last_added_key : Option Bytes
  last_data_handle : Option BlockHandleM
  num_entries : Nat
  deriving Repr, DecidableEq

def TableBuilderM.new (block_size restart_interval : Nat) : TableBuilderM :=
  ⟨[], 0, block_size, BlockBuilderM.new restart_interval, BlockBuilderM.new 1,
    BlockBuilderM.new 1, none, none, none, none, 0⟩

/-- TableBuilder::flush_data_block from src/engine/sst/table_builder.rs:
write the finished data block (with no trailer), record its handle, emit
the pending index entry — keyed by the PREVIOUS block's remembered key but
pointing at the handle of the block just written — then remember next_key
for the following flush. -/
def TableBuilderM.flushDataBlock (t : TableBuilderM) (next_key : Bytes) :
    TableBuilderM :=
  if t.data_block.isEmpty then
    t
  else
    let block_bytes := t.data_block.finishBytes
    let handle : BlockHandleM := ⟨t.offset, block_bytes.length⟩
    let index2 :=
      match t.pending_index_key with
      | some pk => t.index_block.add pk handle.encodeTo
      | none => t.index_block
    { t with
      dst := t.dst ++ block_bytes,
      offset := t.offset + block_bytes.length,
      num_entries := t.num_entries + t.data_block.counter,
      index_block := index2,
      pending_index_key := some next_key,
      last_data_handle := some handle,
      data_block := BlockBuilderM.new t.data_block.restart_interval }

/-- TableBuilder::add from src/engine/sst/table_builder.rs: reject
non-increasing keys, add to the data block, flush when the size estimate
reaches block_size, then update last_added_key and smallest_key. -/
def TableBuilderM.add (t : TableBuilderM) (key value : Bytes) :
    RRes TableBuilderM :=
  let ordOk :=
    match t.last_added_key with
    | some last => bytesCmp key last == Ordering.gt
    | none => true
  if !ordOk then
    RRes.err (DBErr.InvalidKeyOrder ("Keys must be added in order"))
  else
    let t1 := { t with data_block := t.data_block.add key value }
    let t2 :=
      if t1.data_block.currentSizeEstimate ≥ t1.block_size then
        t1.flushDataBlock key
      else
        t1
    RRes.ok { t2 with
      last_added_key := some key,
      smallest_key := if t2.smallest_key.isNone then some key else t2.smallest_key }

/-- The shared tail of TableBuilder::finish: properties, metaindex, index,
footer. -/
def TableBuilderM.finishTail (t : TableBuilderM) : RRes Bytes :=
  let props_bytes := encodeProps t.num_entries
  let props_handle : BlockHandleM := ⟨t.offset, props_bytes.length⟩
  let o1 := t.offset + props_bytes.length
  let meta := t.metaindex_block.add propertiesKey props_handle.encodeTo
  let meta_bytes := meta.finishBytes
  let meta_handle : BlockHandleM := ⟨o1, meta_bytes.length⟩
  let o2 := o1 + meta_bytes.length
  let index_bytes := t.index_block.finishBytes
  let index_handle : BlockHandleM := ⟨o2, index_bytes.length⟩
  let footer := encodeFooter meta_handle index_handle
  match t.smallest_key, t.last_added_key with
  | some _, some _ =>
    RRes.ok (t.dst ++ props_bytes ++ meta_bytes ++ index_bytes ++ footer)
  | none, _ => RRes.err (DBErr.EmptyTable ("smallest key is none"))
  | _, none => RRes.err (DBErr.EmptyTable ("last_added_key key is none"))

/-- TableBuilder::finish from src/engine/sst/table_builder.rs: flush the
final data block, emit the last index entry from pending_index_key and
last_data_handle, then the properties block, the metaindex block, the
index block, and the footer.  No block receives a trailer. -/
def TableBuilderM.finishFile (t : TableBuilderM) : RRes Bytes :=
  let t1 :=
    if !t.data_block.isEmpty then
      let data_bytes := t.data_block.finishBytes
      { t with
        dst := t.dst ++ data_bytes,
        last_data_handle := some ⟨t.offset, data_bytes.length⟩,
        offset := t.offset + data_bytes.length }
    else
      t
  match t1.pending_index_key with
  | some pk =>
    match t1.last_data_handle with
    | none => RRes.panicked
    | some handle =>
      TableBuilderM.finishTail
        { t1 with
          index_block := t1.index_block.add pk handle.encodeTo,
          pending_index_key := none }
  | none => TableBuilderM.finishTail t1

/-- Build a table from a list of pairs through TableBuilder::add and
TableBuilder::finish (the flow of DBImpl::flush_memtable). -/
def tableBuildPairs (block_size restart_interval : Nat)
    (pairs : List (Bytes × Bytes)) : RRes Bytes :=
  let start : RRes TableBuilderM := RRes.ok (TableBuilderM.new block_size restart_interval)
  RRes.bind
    (pairs.foldl (fun acc p => RRes.bind acc (fun t => t.add p.1 p.2)) start)
    TableBuilderM.finishFile

def readLe32At (data : Bytes) (i : Nat) : Nat :=
  data.getD i 0 + 256 * data.getD (i + 1) 0 + 65536 * data.getD (i + 2) 0 +
    16777216 * data.getD (i + 3) 0

def readLe64At (data : Bytes) (i : Nat) : Nat :=
  readLe32At data i + 4294967296 * readLe32At data (i + 4)

/-- Wrapping usize subtraction (release-mode Rust semantics), for the
`data.len() - 4 - n * 4` computation of DataBlock::from_bytes. -/
def wsub (a b : Nat) : Nat :=
  (a + 18446744073709551616 - b % 18446744073709551616) % 18446744073709551616

/-- BlockHandle::decode_from_bytes from src/engine/sst/format.rs. -/
def blockHandleDecodeFromBytes (bytes : Bytes) : RRes BlockHandleM :=
  match tryGetVarint64 bytes 0 with
  | none => RRes.err (DBErr.Corruption ("bad block handle offset"))
  | some (offset, pos) =>
    match tryGetVarint64 bytes pos with
    | none => RRes.err (DBErr.Corruption ("bad block handle size"))
    | some (size, _) => RRes.ok ⟨offset, size⟩

/-- Footer::read_from_file from src/engine/sst/format.rs: seek to the last
48 bytes, decode both handles, check the magic. -/
def footerReadFromFile (file : Bytes) : RRes (BlockHandleM × BlockHandleM) :=
  if file.length < 48 then
    RRes.err (DBErr.Corruption ("file too short to be an sstable"))
  else
    let buf := file.drop (file.length - 48)
    match tryGetVarint64 buf 0 with
    | none => RRes.err (DBErr.Corruption ("bad metaindex handle"))
    | some (mOff, p1) =>
      match tryGetVarint64 buf p1 with
      | none => RRes.err (DBErr.Corruption ("bad metaindex handle"))
      | some (mSize, p2) =>
        match tryGetVarint64 buf p2 with
        | none => RRes.err (DBErr.Corruption ("bad index handle"))
        | some (iOff, p3) =>
          match tryGetVarint64 buf p3 with
          | none => RRes.err (DBErr.Corruption ("bad index handle"))
          | some (iSize, _) =>
            if readLe64At buf 40 ≠ TABLE_MAGIC then
              RRes.err (DBErr.Corruption ("bad sstable magic number"))
            else
              RRes.ok (⟨mOff, mSize⟩, ⟨iOff, iSize⟩)

/-- BLOCK_TRAILER_SIZE from src/engine/sst/block/block.rs. -/
def BLOCK_TRAILER_SIZE : Nat := 5

/-- read_block_raw from src/engine/sst/sst_reader.rs: reads handle.size +
BLOCK_TRAILER_SIZE bytes at handle.offset; no CRC is verified and no
decompression happens (the TODO comments in the source).  A short read is
an Io error (read_exact). -/
def readBlockRaw (file : Bytes) (h : BlockHandleM) : RRes Bytes :=
  let block_size := h.size + BLOCK_TRAILER_SIZE
  if h.offset + block_size ≤ file.length then
    RRes.ok ((file.take (h.offset + block_size)).drop h.offset)
  else
    RRes.err (DBErr.Io ("read_exact"))

/-- Parsed block, from src/engine/sst/block/data_block.rs
(struct DataBlock). -/
structure DataBlockM where
  data : Bytes
  restart_offsets : List Nat
  deriving Repr, DecidableEq

def readRestartsLoop (data : Bytes) (rs : Nat) : Nat → Nat → RRes (List Nat)
  | 0, _ => RRes.ok []
  | f + 1, i =>
    RRes.bind (sliceRange data (rs + i * 4) (rs + (i + 1) * 4)) fun _ =>
      RRes.bind (readRestartsLoop data rs f (i + 1)) fun rest =>
        RRes.ok (readLe32At data (rs + i * 4) :: rest)

/-- DataBlock::from_bytes from src/engine/sst/block/data_block.rs: restart
count from the trailing 4 bytes, restart array start computed with
wrapping usize arithmetic, then the restart offsets. -/
def dataBlockFromBytes (data : Bytes) : RRes DataBlockM :=
  if data.length < 4 then
    RRes.err (DBErr.Corruption ("block too small"))
  else
    let n := readLe32At data (data.length - 4)
    let restarts_start := wsub (data.length - 4) (n * 4)
    if restarts_start > data.length then
      RRes.err (DBErr.Corruption ("bad restart array"))
    else
      RRes.bind (readRestartsLoop data restarts_start n 0) fun offsets =>
        RRes.ok ⟨data, offsets⟩

/-- The panicking get_varint32 of src/engine/sst/block/coding.rs
(`expect` on the try_ variant). -/
def getVarint32Panicking (src : Bytes) (pos : Nat) : RRes (Nat × Nat) :=
  match tryGetVarint32 src pos with
  | none => RRes.panicked
  | some r => RRes.ok r

/-- read_entry_key from src/engine/sst/block/data_block.rs: three varints
(panicking on corruption) and an unchecked slice of the key suffix. -/
def readEntryKey (data : Bytes) (pos : Nat) : RRes (Nat × Bytes × Nat) :=
  RRes.bind (getVarint32Panicking data pos) fun s1 =>
    RRes.bind (getVarint32Panicking data s1.2) fun s2 =>
      RRes.bind (getVarint32Panicking data s2.2) fun s3 =>
        RRes.bind (sliceRange data s3.2 (s3.2 + s2.1)) fun key =>
          RRes.ok (s1.1, key, s3.2 + s2.1)

/-- read_entry from src/engine/sst/block/data_block.rs: three varints
(panicking) and unchecked slices of the key delta and the value. -/
def readEntry (data : Bytes) (pos : Nat) :
    RRes (Nat × Nat × Nat × Bytes × Bytes × Nat) :=
  RRes.bind (getVarint32Panicking data pos) fun s1 =>
    RRes.bind (getVarint32Panicking data s1.2) fun s2 =>
      RRes.bind (getVarint32Panicking data s2.2) fun s3 =>
        RRes.bind (sliceRange data s3.2 (s3.2 + s2.1)) fun key_delta =>
          RRes.bind (sliceRange data (s3.2 + s2.1) (s3.2 + s2.1 + s3.1)) fun value =>
            RRes.ok (s1.1, s2.1, s3.1, key_delta, value, s3.2 + s2.1 + s3.1)

/-- The restart-array binary search shared by DataBlock::get and
DataBlock::lower_bound_value: narrow [left, right) to the last restart
whose first key is < the target; a decode error surfaces as None (the
`.ok()?`), a panic propagates. -/
def dbBsearchLoop (blk : DataBlockM) (key : Bytes) :
    Nat → Nat → Nat → RRes (Option Nat)
  | 0, left, _ => RRes.ok (some left)
  | f + 1, left, right =>
    if left < right then
      let mid := (left + right) / 2
      let off := blk.restart_offsets.getD mid 0
      match readEntryKey blk.data off with
      | RRes.panicked => RRes.panicked
      | RRes.err _ => RRes.ok none
      | RRes.ok (_, first_key, _) =>
        if bytesCmp first_key key == Ordering.lt then
          dbBsearchLoop blk key f (mid + 1) right
        else
          dbBsearchLoop blk key f left mid
    else
      RRes.ok (some left)

/-- The linear scan of DataBlock::get: runs to the END OF THE WHOLE BLOCK
BYTES (`offset < self.data.len()`), i.e. into the restart array region. -/
def dbGetScan (blk : DataBlockM) (key : Bytes) :
    Nat → Nat → Bytes → RRes (Option Bytes)
  | 0, _, _ => RRes.ok none
  | f + 1, offset, last_key =>
    if offset < blk.data.length then
      match readEntry blk.data offset with
      | RRes.panicked => RRes.panicked
      | RRes.err _ => RRes.ok none
      | RRes.ok (shared, _, _, key_delta, value, pos2) =>
        let lk := last_key.take shared ++ key_delta
        match bytesCmp lk key with
        | Ordering.eq => RRes.ok (some value)
        | Ordering.gt => RRes.ok none
        | Ordering.lt => dbGetScan blk key f pos2 lk
    else
      RRes.ok none

/-- DataBlock::get from src/engine/sst/block/data_block.rs. -/
def dataBlockGet (blk : DataBlockM) (key : Bytes) : RRes (Option Bytes) :=
  RRes.bind (dbBsearchLoop blk key (blk.restart_offsets.length + 2) 0
      blk.restart_offsets.length) fun lo =>
    match lo with
    | none => RRes.ok none
    | some left0 =>
      let left := if left0 > 0 then left0 - 1 else left0
      if hleft : left < blk.restart_offsets.length then
        dbGetScan blk key (blk.data.length + 1)
          (blk.restart_offsets.getD left 0) []
      else
        RRes.panicked

/-- The linear scan of DataBlock::lower_bound_value: bounded by
data_entries_end and returning the first value whose key is ≥ target. -/
def dbLowerBoundScan (blk : DataBlockM) (target : Bytes) (entries_end : Nat) :
    Nat → Nat → Bytes → RRes (Option Bytes)
  | 0, _, _ => RRes.ok none
  | f + 1, offset, last_key =>
    if offset < entries_end then
      match readEntry blk.data offset with
      | RRes.panicked => RRes.panicked
      | RRes.err _ => RRes.ok none
      | RRes.ok (shared, _, _, key_delta, value, pos2) =>
        let lk := last_key.take shared ++ key_delta
        match bytesCmp lk target with
        | Ordering.lt => dbLowerBoundScan blk target entries_end f pos2 lk
        | _ => RRes.ok (some value)
    else
      RRes.ok none

/-- DataBlock::lower_bound_value from src/engine/sst/block/data_block.rs. -/
def dataBlockLowerBound (blk : DataBlockM) (target : Bytes) : RRes (Option Bytes) :=
  RRes.bind (dbBsearchLoop blk target (blk.restart_offsets.length + 2) 0
      blk.restart_offsets.length) fun lo =>
    match lo with
    | none => RRes.ok none
    | some left0 =>
      let left := if left0 > 0 then left0 - 1 else left0
      if hleft : left < blk.restart_offsets.length then
        dbLowerBoundScan blk target
          (wsub (blk.data.length - 4) (blk.restart_offsets.length * 4))
          (blk.data.length + 1) (blk.restart_offsets.getD left 0) []
      else
        RRes.panicked

/-- IndexBlock::find_data_block from src/engine/sst/block/index_block.rs:
lower_bound over the index entries; a missing result is a Corruption
error, the hit value decodes to the BlockHandle. -/
def indexFindDataBlock (blk : DataBlockM) (target : Bytes) : RRes BlockHandleM :=
  RRes.bind (dataBlockLowerBound blk target) fun v =>
    match v with
    | none => RRes.err (DBErr.Corruption ("index lower_bound failed"))
    | some bytes => blockHandleDecodeFromBytes bytes

/-- SstReader::open from src/engine/sst/sst_reader.rs with no filter
policy configured (DBImpl::open passes None): footer, then the index
block through read_block_raw and DataBlock::from_bytes. -/
def sstReaderOpen (file : Bytes) : RRes DataBlockM :=
  RRes.bind (footerReadFromFile file) fun handles =>
    RRes.bind (readBlockRaw file handles.2) fun index_bytes =>
      dataBlockFromBytes index_bytes

/-- SstReader::get from src/engine/sst/sst_reader.rs (no filter, cache
miss path): find the data block through the index, read it raw, parse it,
and search it. -/
def sstReaderGet (file : Bytes) (index_block : DataBlockM) (key : Bytes) :
    RRes (Option Bytes) :=
  RRes.bind (indexFindDataBlock index_block key) fun h =>
    RRes.bind (readBlockRaw file h) fun bytes =>
      RRes.bind (dataBlockFromBytes bytes) fun blk =>
        dataBlockGet blk key

/-- End-to-end: build an SST from the pairs, open it, look up a key. -/
def sstRoundTripGet (pairs : List (Bytes × Bytes)) (key : Bytes) :
    RRes (Option Bytes) :=
  RRes.bind (tableBuildPairs 1024 16 pairs) fun file =>
    RRes.bind (sstReaderOpen file) fun index_block =>
      sstReaderGet file index_block key

/-- The SST file the builder produces for the single pair
(key [1] → value [2]) with block_size 1024 and restart_interval 16 (the
source's MIN_BLOCK_SIZE and DEFAULT_RESTART_INTERVAL constants). -/
def c4File : RRes Bytes := tableBuildPairs 1024 16 [([1], [2])]

/-- C4: the claim requires that opening a file produced by the builder
reproduces every written pair, in particular in single-block files.  For
a single-block file no index entry is ever emitted (pending_index_key is
only set by an intra-add flush), and read_block_raw reads
handle.size + BLOCK_TRAILER_SIZE bytes although the builder wrote no
trailer, so the index-block read swallows 5 footer bytes and the restart
count is misparsed: SstReader::open itself fails with a corruption error
and no key can be read back.  This theorem evaluates the code at the
failing input. -/
theorem c4_round_trip_broken :
    sstRoundTripGet [([1], [2])] [1] =
      RRes.err (DBErr.Corruption ("bad restart array")) ∧
    RRes.bind c4File sstReaderOpen =
      RRes.err (DBErr.Corruption ("bad restart array")) := by
  decide

/-- The raw data-block bytes of the same single-pair table. -/
def c5DataBlockBytes : Bytes := ((BlockBuilderM.new 16).add [1] [2]).finishBytes

/-- The trailer the claim requires after the data block: one
compression-type byte (0, no compression) followed by the masked CRC32C
over (raw block ∥ compression type), little-endian. -/
def c5SpecTrailer : Bytes :=
  0 :: le32 (crc32Mask (crc32c (c5DataBlockBytes ++ [0])))

/-- C5: the claim requires every builder-written block to be followed by a
1-byte compression type plus 4-byte masked CRC32C trailer, and every block
read to re-check that CRC, surfacing mismatches as corruption.  The
builder writes no trailer at all (the five bytes following the first data
block are the start of the properties block, all zero), the required
trailer differs from those bytes, and read_block_raw returns arbitrary
bytes without any CRC verification (its TODO comment in the source).
This theorem evaluates the code at the failing inputs. -/
theorem c5_block_trailer_missing :
    (RRes.bind c4File fun file =>
      sliceRange file c5DataBlockBytes.length (c5DataBlockBytes.length + 5)) =
      RRes.ok [0, 0, 0, 0, 0] ∧
    c5SpecTrailer ≠ [0, 0, 0, 0, 0] ∧
    readBlockRaw (List.replicate 30 7) ⟨0, 10⟩ =
      RRes.ok (List.replicate 15 7) := by
  decide

/-- ValueType::from_u8 from src/engine/mem/memtable.rs. -/
def ValueType.fromU8 (v : Nat) : Option ValueType :=
  if v == 0 then some ValueType.Put
  else if v == 1 then some ValueType.Delete
  else none

/-- InternalKey::decode from src/engine/mem/memtable.rs: inputs shorter
than the 8-byte tag are a Corruption error; otherwise the trailing 8
little-endian bytes are the (sequence << 8 | kind) tag. -/
def InternalKey.decodeBytes (bytes : Bytes) : RRes InternalKey :=
  if bytes.length < 8 then
    RRes.err (DBErr.Corruption ("internal key too short"))
  else
    let tag := readLe64At bytes (bytes.length - 8)
    match ValueType.fromU8 (tag % 256) with
    | none => RRes.err (DBErr.Corruption ("invalid value type"))
    | some vt => RRes.ok ⟨bytes.take (bytes.length - 8), tag / 256, vt⟩

/-- raw_mvcc_compare from src/engine/mem/memtable.rs: decodes both
operands with `.unwrap()`, so a decode error is a panic. -/
def rawMvccCompare (a b : Bytes) : RRes Ordering :=
  match InternalKey.decodeBytes a with
  | RRes.err _ => RRes.panicked
  | RRes.panicked => RRes.panicked
  | RRes.ok ka =>
    match InternalKey.decodeBytes b with
    | RRes.err _ => RRes.panicked
    | RRes.panicked => RRes.panicked
    | RRes.ok kb => RRes.ok (mvccComparator ka kb)

/-- A genuine BlockBuilder output: single entry key [2] → empty value. -/
def c9Block : Bytes := ((BlockBuilderM.new 16).add [2] []).finishBytes

/-- C9: the claim requires that production read paths never panic, that
DataBlock::get stop at the end of the entry region, and that the
internal-key comparator of merging iteration handle keys shorter than 8
bytes without trapping.  raw_mvcc_compare unwraps InternalKey::decode, so
an empty key panics; and DataBlock::get scans to data.len() — past the
entry region into the restart array — where the panicking get_varint32
runs off the end of the block: looking up a key greater than every stored
key panics on a perfectly well-formed block.  This theorem evaluates the
code at the failing inputs. -/
theorem c9_read_paths_panic :
    rawMvccCompare [] [] = RRes.panicked ∧
    (RRes.bind (dataBlockFromBytes c9Block) fun blk => dataBlockGet blk [3]) =
      RRes.panicked := by
  decide
